import Mathlib

/-!
Verification of the Runtime Module Lifecycle & Health Monitoring engine.

This file shallowly embeds the parts of the source that the verified
properties are about:

* `shared/mfe-core/src/event-bus.ts` — `NamespacedEventBus` / `GlobalEventBus`.
  A JS `Map<string, Set<Function>>` is embedded as an association list of
  `(key, handler list)` pairs in key-insertion order; a JS `Set` is an
  insertion-ordered duplicate-free list.  Handler functions are embedded by
  identity (`Nat` ids) together with a finite environment giving each
  handler a body: a list of bus operations it performs when invoked, plus a
  flag saying whether it throws afterwards.  `publish` iterates the live
  set exactly as `Set.prototype.forEach` does: entries added during the
  iteration are visited, entries deleted before being visited are skipped,
  and if the key's entry is deleted from the map mid-iteration the iterated
  set detaches (a set re-created later under the same key is a fresh object
  the running iteration never sees).  The `try`/`catch` around each handler
  call is embedded by recording throwing handlers in an error log and
  continuing; `console.error` output is presentational and not modelled.
  Iteration is fuelled because re-entrant delete/re-add loops make the
  source's `forEach` diverge; all theorems below either supply sufficient
  fuel explicitly or hypothesise it.

* `ModuleFederationLoader` (loader source file) — `load` is an `async`
  method; it is embedded as a small-step machine whose atomic blocks are
  the maximal synchronous segments between its `await` points
  (`await loadScript`, `await container.init`, `await container.get`), so
  that the single-threaded cooperative interleaving of two concurrent
  `load()` calls can be executed against an explicit schedule.  The opaque
  external collaborators (DOM script element, webpack container) are
  assumed well-formed: the script load succeeds and the factory yields a
  module with callable `mount`/`unmount`, so the error branches are not
  taken; a fetch is counted when `loadScript` starts.  The returned
  lifecycle object literal is embedded as a fresh object id drawn from a
  counter, so reference identity of contracts is observable.
  `console.log` output is not modelled.

* `MFETelemetry` (telemetry source file) — numeric fields are embedded as
  `ℚ`; every value the claims exercise is integral or a ratio of small
  integers, on which JS float arithmetic is exact.  The environmental
  readings `performance.now()` and `performance.memory.usedJSHeapSize` are
  explicit parameters.  The `metrics` ring buffer, message strings,
  timestamps and `console` logging are presentational and not modelled.
-/

namespace MFE

/-! ## JS Map / Set primitives -/

/-- Handler identity: JS function reference equality. -/
abbrev HId := Nat

/-- A JS string as its sequence of code units.  The event-bus component
computes on its keys (`startsWith`, `substring`, template concatenation),
so its strings are embedded at this granularity; the loader only compares
its keys for equality and keeps Lean's `String`. -/
abbrev JStr := List Char

/-- `Map.prototype.get` on an association list. -/
def mapGet {κ α : Type} [BEq κ] (m : List (κ × α)) (k : κ) : Option α :=
  (m.find? (fun p => p.1 == k)).map (fun p => p.2)

/-- `Map.prototype.set`: replace the entry in place if the key is present,
otherwise append a new entry (JS Maps keep key-insertion order). -/
def mapSet {κ α : Type} [BEq κ] (m : List (κ × α)) (k : κ) (v : α) : List (κ × α) :=
  if (m.find? (fun p => p.1 == k)).isSome then
    m.map (fun p => if p.1 == k then (k, v) else p)
  else m ++ [(k, v)]

/-- `Map.prototype.delete`. -/
def mapDelete {κ α : Type} [BEq κ] (m : List (κ × α)) (k : κ) : List (κ × α) :=
  m.filter (fun p => p.1 != k)

/-- `Set.prototype.add`: appends unless already present. -/
def setAdd (s : List HId) (h : HId) : List HId :=
  if h ∈ s then s else s ++ [h]

/-! ## Event bus (`event-bus.ts`) -/

/-- The `subscriptions: Map<string, Set<Function>>` field shared by
`NamespacedEventBus` and `GlobalEventBus`. -/
structure Bus where
  subs : List (JStr × List HId)
deriving Repr, DecidableEq

/-- `GlobalEventBus.subscribe` / the body of `NamespacedEventBus.subscribe`
after the key has been qualified: create the entry if absent, then `add`. -/
def subscribeKey (b : Bus) (k : JStr) (h : HId) : Bus :=
  match mapGet b.subs k with
  | none => ⟨mapSet b.subs k (setAdd [] h)⟩
  | some s => ⟨mapSet b.subs k (setAdd s h)⟩

/-- The unsubscribe closure returned by `subscribe`: delete the handler
from the key's set if the entry exists, and delete the entry entirely when
the set becomes empty. -/
def unsubscribeKey (b : Bus) (k : JStr) (h : HId) : Bus :=
  match mapGet b.subs k with
  | none => b
  | some s =>
    if s.erase h = [] then ⟨mapDelete b.subs k⟩ else ⟨mapSet b.subs k (s.erase h)⟩

/-- `NamespacedEventBus.getFullEventName`: a `'@'`-prefixed event name is
resolved by stripping the sigil (`event.startsWith('@')` then
`event.substring(1)`); any other name is mangled to
`` `${namespace}:${event}` ``. -/
def getFullEventName (ns : JStr) (event : JStr) : JStr :=
  if event.take 1 = ['@'] then event.drop 1
  else ns ++ [':'] ++ event

/-- A `NamespacedEventBus`: its namespace and its private subscription map. -/
structure NBus where
  ns : JStr
  bus : Bus
deriving Repr, DecidableEq

/-- `NamespacedEventBus.subscribe`. -/
def subscribeN (nb : NBus) (event : JStr) (h : HId) : NBus :=
  { nb with bus := subscribeKey nb.bus (getFullEventName nb.ns event) h }

/-- The unsubscribe closure returned by `NamespacedEventBus.subscribe`
(it captured the fully-qualified event name at subscribe time). -/
def unsubscribeN (nb : NBus) (event : JStr) (h : HId) : NBus :=
  { nb with bus := unsubscribeKey nb.bus (getFullEventName nb.ns event) h }

/-- `NamespacedEventBus.destroy`: `subscriptions.clear()`. -/
def destroyN (nb : NBus) : NBus :=
  { nb with bus := ⟨[]⟩ }

/-- One bus operation a handler body may perform: calling `subscribe` or
the unsubscribe closure on the same underlying subscription map. -/
inductive BusOp where
  | sub (k : JStr) (h : HId)
  | unsub (k : JStr) (h : HId)
deriving Repr, DecidableEq

/-- A handler body: the bus operations it performs when invoked, and
whether it throws afterwards (the throw is caught by `publish`). -/
structure HBody where
  ops : List BusOp := []
  throws : Bool := false
deriving Repr, DecidableEq

/-- Finite handler environment; handlers without an entry do nothing. -/
abbrev HEnv := List (HId × HBody)

def lookupBody (env : HEnv) (h : HId) : HBody :=
  (((env.find? (fun p => p.1 == h))).map (fun p => p.2)).getD {}

/-- The members of the key's `Set`, `[]` if the key is absent. -/
def keySet (b : Bus) (k : JStr) : List HId :=
  (mapGet b.subs k).getD []

/-- State of an in-progress `handlers.forEach` over the published key `k`:
the whole map, the not-yet-visited entries of the iterated set, and
whether the iterated set has been detached from the map (its entry was
deleted; a set re-created later under `k` is a different object). -/
structure IterSt where
  bus : Bus
  pending : List HId
  detached : Bool
deriving Repr, DecidableEq

/-- Effect of one bus operation on the map and on the running iteration,
with `Set.prototype.forEach` semantics: a handler newly added to the
iterated (still attached) set is appended to the unvisited entries; a
handler deleted from it before being visited is dropped; deleting the
key's entry detaches the iterated set. -/
def applyOpLive (k : JStr) (st : IterSt) (op : BusOp) : IterSt :=
  match op with
  | .sub k' h =>
      { bus := subscribeKey st.bus k' h
        pending :=
          if k' = k ∧ ¬ st.detached ∧ h ∉ keySet st.bus k then st.pending ++ [h]
          else st.pending
        detached := st.detached }
  | .unsub k' h =>
      let b' := unsubscribeKey st.bus k' h
      { bus := b'
        pending := if k' = k ∧ ¬ st.detached then st.pending.erase h else st.pending
        detached :=
          st.detached ∨ (k' = k ∧ (mapGet st.bus.subs k).isSome ∧ (mapGet b'.subs k).isNone) }

/-- The `handlers.forEach` loop of `publish`: invoke each unvisited
handler, applying its bus operations and catching its throw (recorded in
the error log), then continue over the live set.  Fuelled: re-entrant
delete/re-add of a handler makes the source's `forEach` diverge. -/
def pubGo (env : HEnv) (k : JStr) :
    Nat → IterSt → List HId → List HId → Bus × List HId × List HId
  | 0, st, inv, errs => (st.bus, inv, errs)
  | Nat.succ fuel, st, inv, errs =>
    match st.pending with
    | [] => (st.bus, inv, errs)
    | h :: rest =>
      let body := lookupBody env h
      let st' := body.ops.foldl (applyOpLive k) { st with pending := rest }
      pubGo env k fuel st' (inv ++ [h]) (if body.throws then errs ++ [h] else errs)

/-- `GlobalEventBus.publish` / the body of `NamespacedEventBus.publish`
after key qualification: look the key up and `forEach` over its set.
Returns the final map, the invocation log and the caught-error log. -/
def publishKey (env : HEnv) (fuel : Nat) (b : Bus) (k : JStr) :
    Bus × List HId × List HId :=
  match mapGet b.subs k with
  | none => (b, [], [])
  | some s => pubGo env k fuel { bus := b, pending := s, detached := false } [] []

/-- `NamespacedEventBus.publish`. -/
def publishN (env : HEnv) (fuel : Nat) (nb : NBus) (event : JStr) :
    Bus × List HId × List HId :=
  publishKey env fuel nb.bus (getFullEventName nb.ns event)

/-- An operation addresses the published key `k` (used to delimit the
re-entrant cases of `publish`). -/
def opTouches (k : JStr) : BusOp → Prop
  | .sub k' _ => k' = k
  | .unsub k' _ => k' = k

instance (k : JStr) (op : BusOp) : Decidable (opTouches k op) := by
  unfold opTouches; cases op <;> infer_instance

/-- Well-formedness every reachable JS state has: unique map keys and
duplicate-free sets. -/
def wfBus (b : Bus) : Prop :=
  (b.subs.map Prod.fst).Nodup ∧ ∀ p ∈ b.subs, p.2.Nodup

instance : DecidablePred wfBus := fun b => by
  unfold wfBus; infer_instance

/-! ## Module Federation loader (`ModuleFederationLoader`) -/

/-- The fields of `MFELoadConfig` that `load` reads (scope defaults to the
name; framework/version/module are forwarded opaquely). -/
structure LoadCfg where
  name : String
  remoteUrl : String
deriving Repr, DecidableEq

/-- Program counter of one in-flight `load(config)` call.  The atomic
blocks are the synchronous segments between its `await`s:
`s0` = entry up to the first suspension; `s1` = resumption after
`await loadScript(...)`; `s2` = after `await container.init(...)`;
`s3` = after `await container.get(...)`, running to completion. -/
inductive LPC where
  | s0 | s1 | s2 | s3
  | done (r : Nat)
deriving Repr, DecidableEq

/-- The loader's instance fields, plus two observation counters: a fetch
counter incremented when `loadScript` starts, and a fresh-object counter
for the lifecycle object literals, so contract reference identity is
observable. -/
structure LoaderSt where
  loadedMFEs : List (String × Nat)
  loadedScripts : List String
  scriptElements : List (String × Nat)
  fetchCount : Nat
  nextObj : Nat
deriving Repr, DecidableEq

/-- `Set.prototype.add` on the `loadedScripts` url set. -/
def scriptsAdd (l : List String) (u : String) : List String :=
  if u ∈ l then l else l ++ [u]

/-- One atomic block of `load(config)`.  `s0`: a cache hit returns the
cached lifecycle; otherwise, if the url is not in `loadedScripts`, start
`loadScript` (one underlying fetch) and suspend, else fall through to the
`container.init` await.  `s1`: the `onload` callback recorded the script
element, then `loadedScripts.add(url)`, then `container.init` suspends.
`s2`: `container.get` suspends.  `s3`: the factory produced a module whose
`mount`/`unmount` validate, a fresh lifecycle object literal is built and
cached, and the call completes with that reference. -/
def stepLoad (c : LoadCfg) : LPC → LoaderSt → LPC × LoaderSt
  | .s0, st =>
    match mapGet st.loadedMFEs c.name with
    | some r => (.done r, st)
    | none =>
      if c.remoteUrl ∈ st.loadedScripts then (.s2, st)
      else (.s1, { st with fetchCount := st.fetchCount + 1 })
  | .s1, st =>
    (.s2, { st with
              scriptElements := mapSet st.scriptElements c.name st.fetchCount,
              loadedScripts := scriptsAdd st.loadedScripts c.remoteUrl })
  | .s2, st => (.s3, st)
  | .s3, st =>
    (.done st.nextObj,
      { st with loadedMFEs := mapSet st.loadedMFEs c.name st.nextObj,
                nextObj := st.nextObj + 1 })
  | .done r, st => (.done r, st)

/-- Iterate `stepLoad` a given number of blocks (a completed call is a
fixed point). -/
def loadSteps : Nat → LoadCfg → LPC → LoaderSt → LPC × LoaderSt
  | 0, _, pc, st => (pc, st)
  | Nat.succ n, c, pc, st =>
    let (pc', st') := stepLoad c pc st
    loadSteps n c pc' st'

/-- A `load(config)` call run to completion with no interleaving: four
blocks always suffice (`s0,s1,s2,s3` on the longest path). -/
def loadRun (c : LoadCfg) (st : LoaderSt) : LPC × LoaderSt :=
  loadSteps 4 c .s0 st

/-- `ModuleFederationLoader.isLoaded`. -/
def isLoaded (st : LoaderSt) (name : String) : Bool :=
  (mapGet st.loadedMFEs name).isSome

/-- `ModuleFederationLoader.unload`: removes the name from the lifecycle
cache only; scripts and shared state are kept. -/
def unloadL (st : LoaderSt) (name : String) : LoaderSt :=
  { st with loadedMFEs := mapDelete st.loadedMFEs name }

/-- Two concurrent `load` calls over the shared loader state. -/
structure Sys2 where
  st : LoaderSt
  pcA : LPC
  pcB : LPC
deriving Repr, DecidableEq

/-- Run one atomic block of the scheduled call (`true` = A, `false` = B);
cooperative single-threaded scheduling on the host's UI thread. -/
def stepSys (cA cB : LoadCfg) (s : Sys2) (who : Bool) : Sys2 :=
  if who then
    let (pc', st') := stepLoad cA s.pcA s.st
    { s with pcA := pc', st := st' }
  else
    let (pc', st') := stepLoad cB s.pcB s.st
    { s with pcB := pc', st := st' }

/-- Execute an explicit schedule of atomic blocks. -/
def runSys (cA cB : LoadCfg) (sched : List Bool) (s : Sys2) : Sys2 :=
  sched.foldl (stepSys cA cB) s

/-- A freshly constructed `ModuleFederationLoader`. -/
def emptyLoader : LoaderSt :=
  { loadedMFEs := [], loadedScripts := [], scriptElements := [],
    fetchCount := 0, nextObj := 0 }

/-! ## Telemetry & health engine (`MFETelemetry`) -/

/-- `HealthStatus`. -/
inductive HealthStatus where
  | healthy | degraded | unhealthy | critical
deriving Repr, DecidableEq

/-- Position of a status in the source's ranking array
`[CRITICAL, UNHEALTHY, DEGRADED, HEALTHY]` (lower = worse). -/
def statusIdx : HealthStatus → Nat
  | .critical => 0
  | .unhealthy => 1
  | .degraded => 2
  | .healthy => 3

/-- Insertion step of a comparator sort on `statusIdx` (ascending), the
effect of `array.sort((a, b) => order.indexOf(a) - order.indexOf(b))`. -/
def insertStatus (x : HealthStatus) : List HealthStatus → List HealthStatus
  | [] => [x]
  | y :: ys =>
    if statusIdx x ≤ statusIdx y then x :: y :: ys else y :: insertStatus x ys

def sortStatuses : List HealthStatus → List HealthStatus
  | [] => []
  | x :: xs => insertStatus x (sortStatuses xs)

/-- `[...].sort(byRankingIdx)[0]`. -/
def overallOf (l : List HealthStatus) : HealthStatus :=
  (sortStatuses l).headD .healthy

structure MemoryThresholds where
  normal : ℚ
  warning : ℚ
  critical : ℚ
deriving Repr, DecidableEq

structure PerfThresholds where
  mountTimeNormal : ℚ
  mountTimeWarning : ℚ
  mountTimeCritical : ℚ
  unmountTimeNormal : ℚ
  unmountTimeWarning : ℚ
  unmountTimeCritical : ℚ
deriving Repr, DecidableEq

structure ErrorThresholds where
  normal : ℚ
  warning : ℚ
  critical : ℚ
deriving Repr, DecidableEq

structure TelemetryThresholds where
  memory : MemoryThresholds
  performance : PerfThresholds
  errors : ErrorThresholds
deriving Repr, DecidableEq

/-- `DEFAULT_THRESHOLDS`. -/
def defaultThresholds : TelemetryThresholds :=
  { memory := { normal := 750 * 1024, warning := 1024 * 1024, critical := 3 * 1024 * 1024 / 2 }
    performance := { mountTimeNormal := 100, mountTimeWarning := 200, mountTimeCritical := 300,
                     unmountTimeNormal := 50, unmountTimeWarning := 100, unmountTimeCritical := 150 }
    errors := { normal := 1/100, warning := 5/100, critical := 10/100 } }

/-- The mutable fields of one `MFETelemetry` tracker (the `metrics` ring
buffer and the name/id strings are presentational and not modelled). -/
structure TelemetrySt where
  mountTimes : List ℚ
  unmountTimes : List ℚ
  errors : Nat
  operations : Nat
  memoryAtMount : ℚ
  memoryAfterMount : ℚ
  memoryAfterUnmount : ℚ
  memoryPeak : ℚ
  memoryBaseline : ℚ
  memoryAfterUnmountHistory : List ℚ
  memoryRetained : ℚ
  mountStartTime : ℚ
  cycleCount : Nat
  isMounted : Bool
  thresholds : TelemetryThresholds
deriving Repr, DecidableEq

/-- A freshly constructed tracker (all numeric fields zero-initialised as
in the class field initialisers). -/
def newTelemetry (th : TelemetryThresholds) : TelemetrySt :=
  { mountTimes := [], unmountTimes := [], errors := 0, operations := 0,
    memoryAtMount := 0, memoryAfterMount := 0, memoryAfterUnmount := 0,
    memoryPeak := 0, memoryBaseline := 0, memoryAfterUnmountHistory := [],
    memoryRetained := 0, mountStartTime := 0, cycleCount := 0,
    isMounted := false, thresholds := th }

/-- `MFETelemetry.startMount`.  `now` is `performance.now()` and `mem` the
`getCurrentMemory()` reading; the baseline is captured when the stored
baseline equals the zero sentinel. -/
def startMount (now mem : ℚ) (s : TelemetrySt) : TelemetrySt :=
  let s := { s with mountStartTime := now, operations := s.operations + 1,
                    memoryAtMount := mem }
  let s := if s.memoryBaseline = 0 then { s with memoryBaseline := s.memoryAtMount } else s
  { s with isMounted := true }

/-- `MFETelemetry.startUnmount` (reuses `mountStartTime` for timing). -/
def startUnmount (now : ℚ) (s : TelemetrySt) : TelemetrySt :=
  { s with mountStartTime := now, cycleCount := s.cycleCount + 1, isMounted := false }

/-- `MFETelemetry.endUnmount` on the non-warning path
(`mountStartTime ≠ 0`): record duration, push the post-unmount memory
reading, and recompute retained memory against the baseline. -/
def endUnmount (now mem : ℚ) (s : TelemetrySt) : TelemetrySt :=
  if s.mountStartTime = 0 then s
  else
    { s with unmountTimes := s.unmountTimes ++ [now - s.mountStartTime],
             mountStartTime := 0,
             memoryAfterUnmount := mem,
             memoryAfterUnmountHistory := s.memoryAfterUnmountHistory ++ [mem],
             memoryRetained := max 0 (mem - s.memoryBaseline) }

/-- `MFETelemetry.reset`. -/
def reset (s : TelemetrySt) : TelemetrySt :=
  { s with mountTimes := [], unmountTimes := [], errors := 0, operations := 0,
           cycleCount := 0, memoryAtMount := 0, memoryAfterMount := 0,
           memoryAfterUnmount := 0, memoryPeak := 0, memoryBaseline := 0,
           memoryAfterUnmountHistory := [], memoryRetained := 0,
           isMounted := false }

/-- `MFETelemetry.getErrorRate`: `operations > 0 ? errors / operations : 0`. -/
def getErrorRate (s : TelemetrySt) : ℚ :=
  if s.operations > 0 then (s.errors : ℚ) / (s.operations : ℚ) else 0

/-- `MFETelemetry.getAvgMountTime` with its empty-list guard. -/
def getAvgMountTime (s : TelemetrySt) : ℚ :=
  if s.mountTimes.length = 0 then 0
  else (s.mountTimes.foldl (· + ·) 0) / (s.mountTimes.length : ℚ)

/-- `MFETelemetry.getAvgUnmountTime` with its empty-list guard. -/
def getAvgUnmountTime (s : TelemetrySt) : ℚ :=
  if s.unmountTimes.length = 0 then 0
  else (s.unmountTimes.foldl (· + ·) 0) / (s.unmountTimes.length : ℚ)

/-- The `reduce((sum, y, x) => sum + x * y, 0)` accumulation of
`getMemoryTrend`: left fold of index-weighted values. -/
def xySumGo : Nat → ℚ → List ℚ → ℚ
  | _, acc, [] => acc
  | x, acc, y :: ys => xySumGo (x + 1) (acc + (x : ℚ) * y) ys

/-- `MFETelemetry.getMemoryTrend`: closed-form least-squares slope of
sample index against post-unmount memory reading; `0` on fewer than two
samples. -/
def getMemoryTrend (hist : List ℚ) : ℚ :=
  if hist.length < 2 then 0
  else
    let n : ℚ := (hist.length : ℚ)
    let xSum := n * (n - 1) / 2
    let ySum := hist.foldl (· + ·) 0
    let xySum := xySumGo 0 0 hist
    let xSquaredSum := n * (n - 1) * (2 * n - 1) / 6
    (n * xySum - xSum * ySum) / (n * xSquaredSum - xSum * xSum)

/-- `MFETelemetry.hasMemoryLeak`: slope above 100KB/cycle or retained
memory above 5MB. -/
def hasMemoryLeak (hist : List ℚ) (retained : ℚ) : Bool :=
  decide (getMemoryTrend hist > 100 * 1024) || decide (retained > 5 * 1024 * 1024)

inductive LeakSeverity where
  | leakNone | minor | moderate | severe
deriving Repr, DecidableEq

/-- Order on severities: `none < minor < moderate < severe`. -/
def severityRank : LeakSeverity → Nat
  | .leakNone => 0
  | .minor => 1
  | .moderate => 2
  | .severe => 3

/-- `MFETelemetry.getLeakSeverity`. -/
def getLeakSeverity (hist : List ℚ) (retained : ℚ) : LeakSeverity :=
  if ¬ hasMemoryLeak hist retained then .leakNone
  else
    let trendKB := getMemoryTrend hist / 1024
    let retainedMB := retained / 1024 / 1024
    if trendKB > 500 ∨ retainedMB > 10 then .severe
    else if trendKB > 250 ∨ retainedMB > 7 then .moderate
    else .minor

structure MemoryCheck where
  status : HealthStatus
  current : ℚ
  threshold : ℚ
deriving Repr, DecidableEq

structure PerfCheck where
  status : HealthStatus
  avgMountTime : ℚ
  avgUnmountTime : ℚ
deriving Repr, DecidableEq

structure ErrorCheck where
  status : HealthStatus
  errorRate : ℚ
  totalErrors : Nat
  totalOperations : Nat
deriving Repr, DecidableEq

/-- `HealthCheck` (message strings and timestamp omitted). -/
structure HealthCheckRes where
  status : HealthStatus
  memory : MemoryCheck
  performance : PerfCheck
  errors : ErrorCheck
deriving Repr, DecidableEq

/-- `MFETelemetry.getHealthCheck`.  `currentMemory` is the
`getCurrentMemory()` reading at call time (it feeds only the reported
`current` field and messages, never a status). -/
def getHealthCheck (s : TelemetrySt) (currentMemory : ℚ) : HealthCheckRes :=
  let avgMountTime := getAvgMountTime s
  let avgUnmountTime := getAvgUnmountTime s
  let errorRate := getErrorRate s
  let memoryStatus :=
    if hasMemoryLeak s.memoryAfterUnmountHistory s.memoryRetained then
      match getLeakSeverity s.memoryAfterUnmountHistory s.memoryRetained with
      | .severe => HealthStatus.critical
      | .moderate => HealthStatus.degraded
      | .minor => HealthStatus.degraded
      | .leakNone => HealthStatus.healthy
    else HealthStatus.healthy
  let perfStatus :=
    if avgMountTime > s.thresholds.performance.mountTimeCritical ∨
       avgUnmountTime > s.thresholds.performance.unmountTimeCritical then
      HealthStatus.critical
    else if avgMountTime > s.thresholds.performance.mountTimeWarning ∨
            avgUnmountTime > s.thresholds.performance.unmountTimeWarning then
      HealthStatus.degraded
    else HealthStatus.healthy
  let errorStatus :=
    if errorRate > s.thresholds.errors.critical then HealthStatus.critical
    else if errorRate > s.thresholds.errors.warning then HealthStatus.degraded
    else if errorRate > s.thresholds.errors.normal then HealthStatus.degraded
    else HealthStatus.healthy
  { status := overallOf [memoryStatus, perfStatus, errorStatus]
    memory := { status := memoryStatus, current := currentMemory,
                threshold := 30 * 1024 * 1024 }
    performance := { status := perfStatus, avgMountTime := avgMountTime,
                     avgUnmountTime := avgUnmountTime }
    errors := { status := errorStatus, errorRate := errorRate,
                totalErrors := s.errors, totalOperations := s.operations } }

/-- Modelled from the spec's words, for comparison in the C7 refinement
claim: the worst of three statuses under the ranking
`Critical > Unhealthy > Degraded > Healthy`. -/
def specWorstOfThree (a b c : HealthStatus) : HealthStatus :=
  let worse : HealthStatus → HealthStatus → HealthStatus :=
    fun x y => if statusIdx x ≤ statusIdx y then x else y
  worse a (worse b c)

/-! ## Concrete scenario inputs used by the closed theorems -/

/-- The `load` configuration of the demo remote. -/
def cfgAlpha : LoadCfg :=
  { name := "alpha", remoteUrl := "http://localhost:5001/remoteEntry.js" }

/-- Two concurrent `load(cfgAlpha)` calls interleaved block-by-block from a
fresh loader: each scheduled block alternates between caller A and caller B,
so B's cache check runs before A has cached anything and B's script check
runs before A's `loadScript` has resolved. -/
def race2 : Sys2 :=
  runSys cfgAlpha cfgAlpha [true, false, true, false, true, false, true, false]
    { st := emptyLoader, pcA := .s0, pcB := .s0 }

/-- Environment of the re-entrant-subscribe scenario: handler `0`
subscribes handler `1` to the same fully-qualified key `"m:e"` when
invoked; handler `1` does nothing. -/
def envReentrant : HEnv := [(0, { ops := [.sub ['m', ':', 'e'] 1] })]

/-- A namespaced bus for module `"m"` with handler `0` subscribed to the
literal event name `"e"`. -/
def nbReentrant : NBus := subscribeN { ns := ['m'], bus := ⟨[]⟩ } ['e'] 0

/-- Environment where handler `1` throws when invoked. -/
def envThrowing : HEnv := [(1, { throws := true })]

/-- A bus with handlers `1`, `2`, `3` subscribed to key `"k"` in that
order. -/
def busThree : Bus :=
  subscribeKey (subscribeKey (subscribeKey ⟨[]⟩ ['k'] 1) ['k'] 2) ['k'] 3

/-- A small well-formed bus used by witnesses. -/
def busW : Bus := ⟨[(['a'], [1, 2]), (['b'], [3])]⟩

/-- A tracker that has performed two `startMount`s whose memory readings
were `0` and then `5`. -/
def trackerZeroFirst : TelemetrySt :=
  startMount 1 5 (startMount 0 0 (newTelemetry defaultThresholds))

/-! ## Association-list lemmas for the embedded JS `Map` -/

theorem find?_mapSet_self {κ α : Type} [BEq κ] [LawfulBEq κ] (m : List (κ × α)) (k : κ) (v : α) :
    (mapSet m k v).find? (fun p => p.1 == k) = some (k, v) := by
  unfold mapSet
  by_cases hf : (m.find? (fun p => p.1 == k)).isSome
  · simp only [if_pos hf]
    induction m with
    | nil => simp at hf
    | cons p m ih =>
      by_cases hp : p.1 == k
      · simp [List.find?_cons, hp]
      · rw [List.find?_cons_of_neg _ (by simpa using hp)] at hf
        simpa [List.find?_cons, hp] using ih hf
  · simp only [if_neg hf]
    rw [List.find?_append]
    simp only [Option.not_isSome_iff_eq_none] at hf
    simp [hf, List.find?_cons]

theorem mapGet_mapSet_self {κ α : Type} [BEq κ] [LawfulBEq κ] (m : List (κ × α)) (k : κ) (v : α) :
    mapGet (mapSet m k v) k = some v := by
  simp [mapGet, find?_mapSet_self]

theorem find?_setMap_other {κ α : Type} [BEq κ] [LawfulBEq κ] (m : List (κ × α)) (k k' : κ) (v : α)
    (hne : k' ≠ k) :
    (m.map (fun p => if p.1 == k then (k, v) else p)).find? (fun p => p.1 == k')
      = m.find? (fun p => p.1 == k') := by
  induction m with
  | nil => rfl
  | cons p m ih =>
    by_cases hp : (p.1 == k : Bool)
    · have hpk : p.1 = k := by simpa using hp
      have h2 : ¬ (p.1 == k' : Bool) := by simpa [hpk] using fun hh => hne hh.symm
      simp [hp, h2, Ne.symm hne, ih]
    · by_cases hq : (p.1 == k' : Bool)
      · simp [hp, hq]
      · simp [hp, hq, ih]

theorem mapGet_mapSet_other {κ α : Type} [BEq κ] [LawfulBEq κ] (m : List (κ × α)) (k k' : κ) (v : α)
    (hne : k' ≠ k) :
    mapGet (mapSet m k v) k' = mapGet m k' := by
  unfold mapGet mapSet
  by_cases hf : (m.find? (fun p => p.1 == k)).isSome
  · simp only [if_pos hf, find?_setMap_other m k k' v hne]
  · simp only [if_neg hf]
    rw [List.find?_append]
    simp [List.find?_cons, Ne.symm hne]

theorem mapGet_mapDelete_self {κ α : Type} [BEq κ] [LawfulBEq κ] (m : List (κ × α)) (k : κ) :
    mapGet (mapDelete m k) k = none := by
  unfold mapGet mapDelete
  induction m with
  | nil => rfl
  | cons p m ih =>
    rw [List.filter_cons]
    by_cases hp : (p.1 == k : Bool)
    · rw [if_neg (by simp [bne, hp])]
      exact ih
    · have hp' : (p.1 == k) = false := by simpa using hp
      rw [if_pos (by simp [bne, hp'])]
      simp only [List.find?_cons, hp']
      exact ih

theorem mapGet_mapDelete_other {κ α : Type} [BEq κ] [LawfulBEq κ] (m : List (κ × α)) (k k' : κ)
    (hne : k' ≠ k) :
    mapGet (mapDelete m k) k' = mapGet m k' := by
  unfold mapGet mapDelete
  induction m with
  | nil => rfl
  | cons p m ih =>
    rw [List.filter_cons]
    by_cases hp : (p.1 == k : Bool)
    · have hpk : p.1 = k := by simpa using hp
      have h2 : (p.1 == k') = false := by simpa [hpk] using fun hh => hne hh.symm
      rw [if_neg (by simp [bne, hp])]
      conv_rhs => rw [List.find?_cons]
      rw [h2]
      exact ih
    · have hp' : (p.1 == k) = false := by simpa using hp
      rw [if_pos (by simp [bne, hp'])]
      by_cases hq : (p.1 == k' : Bool)
      · simp only [List.find?_cons, hq]
      · have hq' : (p.1 == k') = false := by simpa using hq
        simp only [List.find?_cons, hq']
        exact ih

theorem mapSet_mapSet {κ α : Type} [BEq κ] [LawfulBEq κ] (m : List (κ × α)) (k : κ) (v v' : α) :
    mapSet (mapSet m k v) k v' = mapSet m k v' := by
  have hf2 : ((mapSet m k v).find? (fun p => p.1 == k)).isSome := by
    rw [find?_mapSet_self m k v]; rfl
  conv_lhs => rw [mapSet]
  rw [if_pos hf2]
  unfold mapSet
  by_cases hf : (m.find? (fun p => p.1 == k)).isSome
  · rw [if_pos hf, if_pos hf, List.map_map]
    apply List.map_congr_left
    intro p _
    by_cases hp : (p.1 == k : Bool) <;> simp [hp, Function.comp]
  · rw [if_neg hf, if_neg hf, List.map_append]
    have hall : ∀ p ∈ m, ¬ ((p.1 == k : Bool) = true) := by
      simp only [Option.not_isSome_iff_eq_none, List.find?_eq_none] at hf
      exact hf
    have hm : m.map (fun p => if p.1 == k then (k, v') else p) = m := by
      conv_rhs => rw [← List.map_id m]
      apply List.map_congr_left
      intro p hp
      simp [hall p hp]
    rw [hm]
    simp

/-! ## Event-bus helper lemmas -/

theorem unsubscribeKey_none {b : Bus} {k : JStr} {h : HId} (hm : mapGet b.subs k = none) :
    unsubscribeKey b k h = b := by
  unfold unsubscribeKey; rw [hm]

theorem unsubscribeKey_some {b : Bus} {k : JStr} {h : HId} {s : List HId}
    (hm : mapGet b.subs k = some s) :
    unsubscribeKey b k h =
      if s.erase h = [] then ⟨mapDelete b.subs k⟩ else ⟨mapSet b.subs k (s.erase h)⟩ := by
  unfold unsubscribeKey; rw [hm]

/-- In a well-formed bus every key's handler set is duplicate-free. -/
theorem nodupOfKey (b : Bus) (k : JStr) (hwf : wfBus b) :
    ∀ s, mapGet b.subs k = some s → s.Nodup := by
  intro s hs
  unfold mapGet at hs
  obtain ⟨p, hp, hps⟩ : ∃ p, b.subs.find? (fun p => p.1 == k) = some p ∧ p.2 = s := by
    cases hfind : b.subs.find? (fun p => p.1 == k) with
    | none => simp [hfind] at hs
    | some p => exact ⟨p, rfl, by simpa [hfind] using hs⟩
  have hmem := List.mem_of_find?_eq_some hp
  exact hps ▸ hwf.2 p hmem

/-- With no operation addressing the published key, the iteration's
unvisited entries and detachment flag are untouched by a handler's body. -/
theorem foldl_applyOpLive_noTouch (k : JStr) (ops : List BusOp)
    (hno : ∀ op ∈ ops, ¬ opTouches k op) (st : IterSt) :
    (ops.foldl (applyOpLive k) st).pending = st.pending ∧
    (ops.foldl (applyOpLive k) st).detached = st.detached := by
  induction ops generalizing st with
  | nil => exact ⟨rfl, rfl⟩
  | cons op ops ih =>
    have hop := hno op (by simp)
    have hrest : ∀ op ∈ ops, ¬ opTouches k op := fun o ho => hno o (by simp [ho])
    have hstep : (applyOpLive k st op).pending = st.pending ∧
        (applyOpLive k st op).detached = st.detached := by
      cases op with
      | sub k' h =>
        simp only [opTouches] at hop
        simp [applyOpLive, hop]
      | unsub k' h =>
        simp only [opTouches] at hop
        simp [applyOpLive, hop]
    rw [List.foldl_cons]
    have hmain := ih hrest (applyOpLive k st op)
    exact ⟨hmain.1.trans hstep.1, hmain.2.trans hstep.2⟩

/-- With no handler body addressing the published key, the `forEach` loop
invokes exactly the unvisited entries in order and records exactly the
throwing ones among them, given enough fuel. -/
theorem pubGo_noTouch (env : HEnv) (k : JStr)
    (henv : ∀ h : HId, ∀ op ∈ (lookupBody env h).ops, ¬ opTouches k op) :
    ∀ (fuel : Nat) (st : IterSt) (inv errs : List HId), st.pending.length ≤ fuel →
      (pubGo env k fuel st inv errs).2.1 = inv ++ st.pending ∧
      (pubGo env k fuel st inv errs).2.2
        = errs ++ st.pending.filter (fun h => (lookupBody env h).throws) := by
  intro fuel
  induction fuel with
  | zero =>
    intro st inv errs hf
    have hnil : st.pending = [] := List.length_eq_zero.mp (Nat.le_zero.mp hf)
    simp [pubGo, hnil]
  | succ fuel ih =>
    intro st inv errs hf
    obtain ⟨sbus, spending, sdet⟩ := st
    cases spending with
    | nil => simp [pubGo]
    | cons h rest =>
      simp only [pubGo]
      have hfold := foldl_applyOpLive_noTouch k (lookupBody env h).ops (henv h)
        ⟨sbus, rest, sdet⟩
      have hlen : ((lookupBody env h).ops.foldl (applyOpLive k) ⟨sbus, rest, sdet⟩).pending.length
          ≤ fuel := by
        rw [hfold.1]
        exact Nat.le_of_succ_le_succ (by simpa using hf)
      have hih := ih _ (inv ++ [h])
        (if (lookupBody env h).throws then errs ++ [h] else errs) hlen
      rw [hih.1, hih.2, hfold.1]
      constructor
      · simp
      · by_cases ht : (lookupBody env h).throws
        · simp [ht, List.filter_cons]
        · simp [ht, List.filter_cons]

/-- Handlers drawn from an environment whose bodies are all effect-free
have effect-free bodies, lookup defaults included. -/
theorem lookupBody_ops_nil {env : HEnv} (hops : ∀ p ∈ env, p.2.ops = []) (h : HId) :
    (lookupBody env h).ops = [] := by
  unfold lookupBody
  cases hfind : env.find? (fun p => p.1 == h) with
  | none => rfl
  | some p => simpa using hops p (List.mem_of_find?_eq_some hfind)

/-- `subscribe` leaves every other key's entry unchanged. -/
theorem mapGet_subscribeKey_other {b : Bus} {k : JStr} {h : HId} {k' : JStr} (hne : k' ≠ k) :
    mapGet (subscribeKey b k h).subs k' = mapGet b.subs k' := by
  unfold subscribeKey
  cases hm : mapGet b.subs k with
  | none => exact mapGet_mapSet_other _ _ _ _ hne
  | some s => exact mapGet_mapSet_other _ _ _ _ hne

/-! ## Claim theorems -/

/-- Claim C2, counterexample: `publish` iterates the live `Set`, not a
snapshot.  With handler `0` registered for the key at call time and
subscribing handler `1` to the same key when invoked, the publish cycle
invokes `[0, 1]`, not the registered-at-call-time `[0]` the claim
requires. -/
theorem C2_counterexample :
    keySet nbReentrant.bus (getFullEventName nbReentrant.ns ['e']) = [0]
    ∧ (publishN envReentrant 4 nbReentrant ['e']).2.1 = [0, 1]
    ∧ ([0, 1] : List HId) ≠ [0] := ⟨by decide, by decide, by decide⟩

/-- Claim C2, amended: `publish(event, payload)` invokes the handlers
registered for the key in registration order — exactly the set registered
at the moment of the call whenever no invoked handler mutates that key's
subscription set during the cycle — but the iteration runs over the live
set rather than a snapshot: a handler that subscribes a new handler to the
same key during this publish causes the new handler to also be invoked in
the same publish cycle. -/
theorem C2_amended_live_iteration :
    (∀ (env : HEnv) (b : Bus) (k : JStr) (fuel : Nat) (s : List HId),
        mapGet b.subs k = some s →
        (∀ h : HId, ∀ op ∈ (lookupBody env h).ops, ¬ opTouches k op) →
        s.length ≤ fuel →
        (publishKey env fuel b k).2.1 = s)
    ∧ (publishN envReentrant 4 nbReentrant ['e']).2.1 = [0, 1]
    ∧ (publishN envReentrant 4 nbReentrant ['e']).1
        = ⟨[(['m', ':', 'e'], [0, 1])]⟩ := by
  refine ⟨?_, by decide, by decide⟩
  intro env b k fuel s hs henv hf
  unfold publishKey
  rw [hs]
  have hmain := pubGo_noTouch env k henv fuel ⟨b, s, false⟩ [] [] (by simpa using hf)
  simpa using hmain.1

/-- Claim C2, witness: the snapshot-like conjunct applied to a one-handler
bus with an effect-free environment. -/
theorem C2_amended_live_iteration_witness :
    (publishKey [] 1 ⟨[(['g'], [5])]⟩ ['g']).2.1 = [5] :=
  C2_amended_live_iteration.1 [] ⟨[(['g'], [5])]⟩ ['g'] 1 [5] (by decide)
    (fun h op hop => by
      rw [lookupBody_ops_nil (by decide) h] at hop
      exact absurd hop (List.not_mem_nil op))
    (by decide)

/-- Claim C9: a throwing handler is isolated.  For a key whose registered
handlers do not mutate that key's subscriptions, if one registered handler
throws when invoked, every registered handler — including those after the
throwing one — is still invoked in registration order, and the exception
is caught: it lands in `publish`'s caught-error log (the embedded
`try`/`catch`), and `publish` returns its result normally instead of
propagating. -/
theorem C9_throwing_handler_isolated (env : HEnv) (b : Bus) (k : JStr) (fuel : Nat)
    (s : List HId) (hT : HId)
    (hs : mapGet b.subs k = some s)
    (henv : ∀ h : HId, ∀ op ∈ (lookupBody env h).ops, ¬ opTouches k op)
    (hf : s.length ≤ fuel)
    (hmem : hT ∈ s) (hth : (lookupBody env hT).throws = true) :
    (publishKey env fuel b k).2.1 = s ∧ hT ∈ (publishKey env fuel b k).2.2 := by
  unfold publishKey
  rw [hs]
  have hmain := pubGo_noTouch env k henv fuel ⟨b, s, false⟩ [] [] (by simpa using hf)
  refine ⟨by simpa using hmain.1, ?_⟩
  rw [hmain.2]
  simp only [List.nil_append]
  exact List.mem_filter.mpr ⟨hmem, hth⟩

/-- Claim C9, witness: handlers `1`, `2`, `3` on key `"k"` with handler
`1` throwing — all three are invoked and the throw is caught. -/
theorem C9_throwing_handler_isolated_witness :
    (publishKey envThrowing 3 busThree ['k']).2.1 = [1, 2, 3]
    ∧ 1 ∈ (publishKey envThrowing 3 busThree ['k']).2.2 :=
  C9_throwing_handler_isolated envThrowing busThree ['k'] 3 [1, 2, 3] 1 (by decide)
    (fun h op hop => by
      rw [lookupBody_ops_nil (by decide) h] at hop
      exact absurd hop (List.not_mem_nil op))
    (by decide) (by decide) (by decide)

/-- Claim C10: the broadcast sigil `'@'` is stripped and nothing else
(`getFullEventName ns ('@' :: s) = s`); any other name is mangled to
`namespace:event`; two distinct namespaces mangle the same literal
unprefixed event name to distinct keys; and publishing that name on one
module's bus never invokes a handler that another module's bus registered
under its own mangling of the same literal name — even if both buses
shared one subscription table. -/
theorem C10_namespacing (ns1 ns2 e s : JStr) (hne : ns1 ≠ ns2) (hpre : ¬ e.take 1 = ['@']) :
    getFullEventName ns1 ('@' :: s) = s
    ∧ getFullEventName ns1 e = ns1 ++ [':'] ++ e
    ∧ getFullEventName ns1 e ≠ getFullEventName ns2 e
    ∧ (∀ (b : Bus) (h : HId) (fuel : Nat),
        (keySet b (getFullEventName ns1 e)).length ≤ fuel →
        h ∉ keySet b (getFullEventName ns1 e) →
        h ∉ (publishKey [] fuel (subscribeKey b (getFullEventName ns2 e) h)
              (getFullEventName ns1 e)).2.1) := by
  have hkey : getFullEventName ns1 e ≠ getFullEventName ns2 e := by
    simp only [getFullEventName, if_neg hpre]
    intro hc
    rw [List.append_assoc, List.append_assoc] at hc
    exact hne (List.append_cancel_right hc)
  refine ⟨by simp [getFullEventName], by simp [getFullEventName, hpre], hkey, ?_⟩
  intro b h fuel hflen hnotin
  unfold publishKey
  cases hm : mapGet (subscribeKey b (getFullEventName ns2 e) h).subs (getFullEventName ns1 e) with
  | none => simp
  | some s' =>
    have hs : mapGet b.subs (getFullEventName ns1 e) = some s' := by
      rw [← mapGet_subscribeKey_other hkey]; exact hm
    have hks : keySet b (getFullEventName ns1 e) = s' := by
      unfold keySet; rw [hs]; rfl
    have henv : ∀ hh : HId, ∀ op ∈ (lookupBody ([] : HEnv) hh).ops,
        ¬ opTouches (getFullEventName ns1 e) op :=
      fun hh op hop => by
        rw [lookupBody_ops_nil (by simp) hh] at hop
        exact absurd hop (List.not_mem_nil op)
    have hmain := pubGo_noTouch [] (getFullEventName ns1 e) henv fuel
      ⟨subscribeKey b (getFullEventName ns2 e) h, s', false⟩ [] [] (hks ▸ hflen)
    rw [hmain.1]
    simpa [hks] using hnotin

/-- Claim C10, witness: distinct namespaces `"a"` and `"b"` qualify the
same literal event name `"e"` to distinct keys. -/
theorem C10_namespacing_witness :
    getFullEventName ['a'] ['e'] ≠ getFullEventName ['b'] ['e'] :=
  (C10_namespacing ['a'] ['b'] ['e'] [] (by decide) (by decide)).2.2.1

/-- A cache hit returns the cached contract and changes nothing: `load`
completes in its first synchronous block with the state identically
preserved (no fetch, no script-set or cache mutation). -/
theorem loadRun_cached (st : LoaderSt) (c : LoadCfg) (r : Nat)
    (hm : mapGet st.loadedMFEs c.name = some r) :
    loadRun c st = (.done r, st) := by
  simp [loadRun, loadSteps, stepLoad, hm]

/-- A completed `load` leaves its returned contract in the cache under the
requested name. -/
theorem loadRun_caches (st st' : LoaderSt) (c : LoadCfg) (r : Nat)
    (heq : loadRun c st = (.done r, st')) :
    mapGet st'.loadedMFEs c.name = some r := by
  cases hm : mapGet st.loadedMFEs c.name with
  | some r0 =>
    rw [loadRun_cached st c r0 hm] at heq
    have h1 : LPC.done r0 = LPC.done r := congrArg Prod.fst heq
    have h2 : st = st' := congrArg Prod.snd heq
    cases h1
    cases h2
    exact hm
  | none =>
    by_cases hu : c.remoteUrl ∈ st.loadedScripts
    · simp [loadRun, loadSteps, stepLoad, hm, hu] at heq
      obtain ⟨h1, h2⟩ := heq
      subst h1
      rw [← h2]
      exact mapGet_mapSet_self _ _ _
    · simp [loadRun, loadSteps, stepLoad, hm, hu] at heq
      obtain ⟨h1, h2⟩ := heq
      subst h1
      rw [← h2]
      exact mapGet_mapSet_self _ _ _

/-- Claim C1, counterexample: two concurrent `load()` calls for the same
uncached name do not coalesce.  Interleaving the two calls block-by-block
from a fresh loader performs two underlying fetches (both callers pass the
cache and script-set checks before either `loadScript` resolves), and the
callers receive distinct contract references (object `0` and object `1`),
contradicting the claimed single fetch and shared reference. -/
theorem C1_counterexample :
    race2.st.fetchCount = 2
    ∧ race2.pcA = .done 0 ∧ race2.pcB = .done 1
    ∧ (0 : Nat) ≠ 1 := ⟨by decide, by decide, by decide, by decide⟩

/-- Claim C1, amended: concurrent `load()` calls for the same uncached
name are not coalesced — when the second call starts before the first's
awaits resolve, each call performs its own underlying fetch and each
caller receives its own distinct contract object, the later completion
overwriting the earlier cache entry; only a call that starts after a load
has completed hits the cache and shares that (last-written) reference. -/
theorem C1_amended_no_coalescing :
    race2.st.fetchCount = 2
    ∧ race2.pcA = .done 0 ∧ race2.pcB = .done 1
    ∧ mapGet race2.st.loadedMFEs cfgAlpha.name = some 1
    ∧ loadRun cfgAlpha race2.st = (.done 1, race2.st) :=
  ⟨by decide, by decide, by decide, by decide,
   loadRun_cached race2.st cfgAlpha 1 (by decide)⟩

/-- Claim C3: a cache hit returns the identical cached contract reference
with no side effects — the whole loader state (lifecycle cache, script
set, script elements, fetch counter, object counter) is returned
unchanged — and consequently a second `load()` after a successful one
returns the first call's reference and changes nothing, performing no
second fetch. -/
theorem C3_cache_hit_no_side_effects :
    (∀ (st : LoaderSt) (c : LoadCfg) (r : Nat),
        mapGet st.loadedMFEs c.name = some r → loadRun c st = (.done r, st))
    ∧ (∀ (st st' : LoaderSt) (c : LoadCfg) (r : Nat),
        loadRun c st = (.done r, st') → loadRun c st' = (.done r, st')) :=
  ⟨loadRun_cached,
   fun st st' c r heq => loadRun_cached st' c r (loadRun_caches st st' c r heq)⟩

/-- Claim C3, witness: a second sequential `load("alpha")` after the
interleaved pair returns the cached contract with the state unchanged. -/
theorem C3_cache_hit_no_side_effects_witness :
    loadRun cfgAlpha race2.st = (.done 1, race2.st) :=
  C3_cache_hit_no_side_effects.1 race2.st cfgAlpha 1 (by decide)

/-- The least-squares slope of ten post-unmount readings growing by
exactly 200KB (204800 bytes) per cycle is exactly 204800, whatever the
base reading. -/
theorem trend_200k (b : ℚ) :
    getMemoryTrend ((List.range 10).map (fun i => b + 204800 * (i : ℚ))) = 204800 := by
  have hrange : (List.range 10) = [0,1,2,3,4,5,6,7,8,9] := rfl
  rw [hrange]
  norm_num [getMemoryTrend, xySumGo, List.foldl, List.length]
  ring_nf

/-- Claim C4: on a ten-sample post-unmount series growing by exactly 200KB
per cycle, the regression slope (exactly 204800 bytes/cycle) lies strictly
between 150KB and 250KB per cycle, `hasMemoryLeak` flags a leak because
the slope exceeds the 100KB/cycle threshold (whatever the retained-memory
figure), and the reported severity is at least `minor`. -/
theorem C4_leak_regression_slope (b retained : ℚ) :
    getMemoryTrend ((List.range 10).map (fun i => b + 204800 * (i : ℚ))) = 204800
    ∧ 150 * 1024 < getMemoryTrend ((List.range 10).map (fun i => b + 204800 * (i : ℚ)))
    ∧ getMemoryTrend ((List.range 10).map (fun i => b + 204800 * (i : ℚ))) < 250 * 1024
    ∧ hasMemoryLeak ((List.range 10).map (fun i => b + 204800 * (i : ℚ))) retained = true
    ∧ 1 ≤ severityRank
        (getLeakSeverity ((List.range 10).map (fun i => b + 204800 * (i : ℚ))) retained) := by
  have ht := trend_200k b
  have hleak : hasMemoryLeak ((List.range 10).map (fun i => b + 204800 * (i : ℚ))) retained
      = true := by
    unfold hasMemoryLeak
    rw [ht]
    rw [Bool.or_eq_true, decide_eq_true_iff]
    left
    norm_num
  refine ⟨ht, by rw [ht]; norm_num, by rw [ht]; norm_num, hleak, ?_⟩
  unfold getLeakSeverity
  simp only [hleak]
  norm_num
  split_ifs <;> simp [severityRank]

/-- Claim C5, counterexample: the baseline is not always fixed by the
first-ever `startMount`.  With a first reading of `0` the stored baseline
stays at the zero sentinel, so a second `startMount` reading `5` changes
the baseline from `0` to `5` — a subsequent `startMount` did not leave the
baseline captured by the first one unchanged. -/
theorem C5_counterexample :
    (startMount 0 0 (newTelemetry defaultThresholds)).memoryBaseline = 0
    ∧ trackerZeroFirst.memoryBaseline = 5
    ∧ (5 : ℚ) ≠ 0 :=
  ⟨by rfl, by rfl, by norm_num⟩

/-- Claim C5, amended: the baseline field uses `0` as its unset sentinel.
Every `startMount` on a tracker whose stored baseline is nonzero leaves it
unchanged, a `startMount` on a tracker whose stored baseline is zero sets
it to that call's memory reading (so the first `startMount` that observes
a nonzero reading captures it, and a zero reading leaves it unset), and
`reset()` clears it back to zero so the next `startMount` recaptures. -/
theorem C5_amended_baseline_sentinel :
    (∀ (s : TelemetrySt) (now mem : ℚ), s.memoryBaseline ≠ 0 →
        (startMount now mem s).memoryBaseline = s.memoryBaseline)
    ∧ (∀ (s : TelemetrySt) (now mem : ℚ), s.memoryBaseline = 0 →
        (startMount now mem s).memoryBaseline = mem)
    ∧ (∀ s : TelemetrySt, (reset s).memoryBaseline = 0) := by
  refine ⟨?_, ?_, fun s => rfl⟩
  · intro s now mem h
    unfold startMount
    simp only []
    rw [if_neg ?hc]
    case hc => simpa using h
  · intro s now mem h
    unfold startMount
    simp only []
    rw [if_pos ?hc]
    case hc => simpa using h

/-- Claim C5, witness: a fresh tracker's first `startMount` with a nonzero
reading captures it as the baseline. -/
theorem C5_amended_baseline_sentinel_witness :
    (startMount 0 7 (newTelemetry defaultThresholds)).memoryBaseline = 7 :=
  C5_amended_baseline_sentinel.2.1 (newTelemetry defaultThresholds) 0 7 rfl

/-- Claim C6: a freshly constructed tracker reports `Healthy` overall, and
every guarded ratio — error rate, average mount time, average unmount
time, memory trend — returns `0` on the empty case instead of dividing by
zero. -/
theorem C6_fresh_tracker_healthy (mem : ℚ) :
    getErrorRate (newTelemetry defaultThresholds) = 0
    ∧ getAvgMountTime (newTelemetry defaultThresholds) = 0
    ∧ getAvgUnmountTime (newTelemetry defaultThresholds) = 0
    ∧ getMemoryTrend (newTelemetry defaultThresholds).memoryAfterUnmountHistory = 0
    ∧ (getHealthCheck (newTelemetry defaultThresholds) mem).status = HealthStatus.healthy := by
  refine ⟨by simp [getErrorRate, newTelemetry], by simp [getAvgMountTime, newTelemetry],
    by simp [getAvgUnmountTime, newTelemetry], by simp [getMemoryTrend, newTelemetry], ?_⟩
  simp only [getHealthCheck, newTelemetry]
  norm_num [getErrorRate, getAvgMountTime, getAvgUnmountTime, hasMemoryLeak, getMemoryTrend,
    getLeakSeverity, overallOf, sortStatuses, insertStatus, statusIdx, defaultThresholds]

/-- The source's comparator sort over the ranking array agrees with the
spec-worded worst-of-three on every status triple. -/
theorem overallOf_eq_specWorst :
    ∀ a b c : HealthStatus, overallOf [a, b, c] = specWorstOfThree a b c := by
  intro a b c
  cases a <;> cases b <;> cases c <;> rfl

/-- Claim C7: for every tracker state and memory reading, the overall
status of `getHealthCheck()` equals the worst of its three sub-check
statuses under the ranking `Critical > Unhealthy > Degraded > Healthy`. -/
theorem C7_overall_worst_of_three (s : TelemetrySt) (mem : ℚ) :
    (getHealthCheck s mem).status
      = specWorstOfThree (getHealthCheck s mem).memory.status
          (getHealthCheck s mem).performance.status
          (getHealthCheck s mem).errors.status := by
  exact overallOf_eq_specWorst _ _ _

/-- Claim C8: for every well-formed bus state, the unsubscribe callback
returned by `subscribe(event, handler)` removes exactly that handler from
that key — the key's set becomes `erase h`, which on duplicate-free sets
is the not-equal filter, so all other handlers keep their order, and every
other key's entry is untouched; the key's entry is deleted entirely once
its last handler is removed (the `erase h = []` branch); and the callback
is idempotent: invoking it a second time leaves the subscription table
unchanged. -/
theorem C8_unsubscribe_exact_idempotent (b : Bus) (k : JStr) (h : HId) (hwf : wfBus b) :
    (mapGet (unsubscribeKey b k h).subs k
        = (mapGet b.subs k).bind (fun s => if s.erase h = [] then none else some (s.erase h)))
    ∧ (∀ k', k' ≠ k → mapGet (unsubscribeKey b k h).subs k' = mapGet b.subs k')
    ∧ (∀ s, mapGet b.subs k = some s → s.erase h = s.filter (fun x => x != h))
    ∧ unsubscribeKey (unsubscribeKey b k h) k h = unsubscribeKey b k h := by
  refine ⟨?_, ?_, ?_, ?_⟩
  · cases hm : mapGet b.subs k with
    | none => rw [unsubscribeKey_none hm, hm]; rfl
    | some s =>
      rw [unsubscribeKey_some hm, Option.some_bind]
      by_cases he : s.erase h = []
      · rw [if_pos he, if_pos he]
        exact mapGet_mapDelete_self _ _
      · rw [if_neg he, if_neg he]
        exact mapGet_mapSet_self _ _ _
  · intro k' hk'
    cases hm : mapGet b.subs k with
    | none => rw [unsubscribeKey_none hm]
    | some s =>
      rw [unsubscribeKey_some hm]
      by_cases he : s.erase h = []
      · rw [if_pos he]
        exact mapGet_mapDelete_other _ _ _ hk'
      · rw [if_neg he]
        exact mapGet_mapSet_other _ _ _ _ hk'
  · intro s hs
    exact (nodupOfKey b k hwf s hs).erase_eq_filter h
  · cases hm : mapGet b.subs k with
    | none => rw [unsubscribeKey_none hm, unsubscribeKey_none hm]
    | some s =>
      have hnd := nodupOfKey b k hwf s hm
      rw [unsubscribeKey_some hm]
      by_cases he : s.erase h = []
      · rw [if_pos he]
        have hd : mapGet (Bus.mk (mapDelete b.subs k)).subs k = (none : Option (List HId)) :=
          mapGet_mapDelete_self _ _
        rw [unsubscribeKey_none hd]
      · rw [if_neg he]
        have h2 : mapGet (Bus.mk (mapSet b.subs k (s.erase h))).subs k = some (s.erase h) :=
          mapGet_mapSet_self _ _ _
        have h3 : (s.erase h).erase h = s.erase h := List.erase_of_not_mem hnd.not_mem_erase
        rw [unsubscribeKey_some h2, h3, if_neg he]
        have h4 : mapSet (mapSet b.subs k (s.erase h)) k (s.erase h) = mapSet b.subs k (s.erase h) :=
          mapSet_mapSet _ _ _ _
        rw [h4]

/-- Claim C8, witness: the idempotence conjunct evaluated on a concrete
well-formed bus. -/
theorem C8_unsubscribe_exact_idempotent_witness :
    unsubscribeKey (unsubscribeKey busW ['a'] 1) ['a'] 1 = unsubscribeKey busW ['a'] 1 :=
  (C8_unsubscribe_exact_idempotent busW ['a'] 1 (by decide)).2.2.2

end MFE

